import Mathlib

/-!
# Verification of the preflop-range-quiz core (src/src/App.tsx)

Shallow embedding of the adaptive weighted-sampling and progress-tracking
engine of the quiz application.  Pure helpers of App.tsx become Lean
functions; the React component state becomes an explicit `SessionState`
record, and the event handler `handleAnswer` becomes a state-transition
function.  External runtime facilities are modelled at their interface:
the value of `Math.random()` and the string `new Date().toISOString()`
would produce become explicit parameters, the local-storage blob becomes
an `Option` of an already-parsed JSON value (`JSON.parse` is a browser
builtin; a blob that fails to parse, such as the literal string
"not json", is represented by `some none`), and `persistProgress` appends
the written store to an explicit write log.  All numbers occurring in the
engine (miss counts, player counts, totals) are integers in the source
data, so JSON numbers are modelled as `Int`; the real-valued random draw
and the weight threshold are modelled as rationals.
-/

/-- JSON values, as produced by `JSON.parse` and consumed by
`JSON.stringify`.  Numbers are restricted to `Int`: every number the
progress store writes or reads is an integer miss count. -/
inductive Json where
  | null : Json
  | bool (b : Bool) : Json
  | num (n : Int) : Json
  | str (s : String) : Json
  | arr (elems : List Json) : Json
  | obj (fields : List (String × Json)) : Json

/-- Type `RawHandRecord` of App.tsx: one CSV row, all fields still
strings. -/
structure RawHandRecord where
  Hand : String
  Color : String
  Players : String
  misses : String
deriving DecidableEq

/-- Type `HandRecord` of App.tsx: a normalized quiz item. -/
structure HandRecord where
  Hand : String
  Color : String
  Players : Int
  misses : Int
  lastMissedAt : Option String
deriving DecidableEq

/-- The per-hand entry of `ProgressStore.perHand` in App.tsx. -/
structure HandProgress where
  misses : Int
  lastMissedAt : Option String
deriving DecidableEq

/-- Type `ProgressStore` of App.tsx.  The TypeScript
`Record<string, …>` is a JavaScript object, modelled as an association
list in insertion order with unique keys (first match wins on lookup). -/
structure ProgressStore where
  totalMisses : Int
  perHand : List (String × HandProgress)
deriving DecidableEq

/-- Type `AnswerStatus` of App.tsx. -/
inductive AnswerStatus where
  | idle
  | correct
  | incorrect
deriving DecidableEq

/-- Constant `DEFAULT_PROGRESS` of App.tsx. -/
def DEFAULT_PROGRESS : ProgressStore := { totalMisses := 0, perHand := [] }

/-- Property access `m[k]` on a JavaScript object modelled as an
association list: the value at the first matching key, if any. -/
def lookupKey {α : Type} (m : List (String × α)) (k : String) : Option α :=
  (m.find? (fun p => p.1 = k)).map (·.2)

/-- The JavaScript object spread `{...m, [k]: v}`: if `k` is already a
key its value is replaced in place, otherwise the pair is appended at the
end. -/
def setKey {α : Type} (m : List (String × α)) (k : String) (v : α) :
    List (String × α) :=
  if (lookupKey m k).isSome then
    m.map (fun p => if p.1 = k then (k, v) else p)
  else
    m ++ [(k, v)]

/-- The builtin `String.prototype.trim`: strip leading and trailing
whitespace.  (Defined on the character list so that it evaluates by
kernel reduction.) -/
def jsTrim (s : String) : String :=
  String.mk
    (((s.data.dropWhile Char.isWhitespace).reverse.dropWhile
      Char.isWhitespace).reverse)

/-- The numeric value of a list of decimal digits. -/
def digitsVal (cs : List Char) : Int :=
  cs.foldl (fun n c => n * 10 + ((c.toNat : Int) - 48)) 0

/-- The builtin `Number(value)` restricted to the integer-literal strings
this data set uses (an optional sign followed by decimal digits); any
other string is a failed, non-finite parse. -/
def jsNumber? (s : String) : Option Int :=
  match s.data with
  | [] => none
  | '-' :: rest =>
      if rest ≠ [] ∧ rest.all Char.isDigit then some (-(digitsVal rest))
      else none
  | cs => if cs.all Char.isDigit then some (digitsVal cs) else none

/-- Function `parseNumber` of App.tsx: `Number(value)` guarded by
`Number.isFinite`, falling back to `fallback` on a failed parse. -/
def parseNumber (value : String) (fallback : Int) : Int :=
  match jsNumber? value with
  | some n => n
  | none => fallback

/-- Function `ensureMinimumMisses` of App.tsx: `Math.max(1, misses)`. -/
def ensureMinimumMisses (misses : Int) : Int := max 1 misses

/-- The effect of `JSON.stringify` on one `perHand` entry: the
`lastMissedAt` field is omitted when absent (stringify drops fields whose
value is undefined). -/
def encodeHandProgress (v : HandProgress) : Json :=
  Json.obj ([("misses", Json.num v.misses)] ++
    (match v.lastMissedAt with
     | some t => [("lastMissedAt", Json.str t)]
     | none => []))

/-- The effect of `JSON.stringify` on a `ProgressStore` (the body of
`persistProgress`). -/
def encodeStore (s : ProgressStore) : Json :=
  Json.obj [("totalMisses", Json.num s.totalMisses),
            ("perHand", Json.obj (s.perHand.map
              (fun p => (p.1, encodeHandProgress p.2))))]

/-- Reading one `perHand` entry back from parsed JSON.  The source
performs no validation (the `as ProgressStore` cast); on blobs the store
itself wrote the fields always have this shape, and an off-schema entry
is dropped. -/
def decodeHandProgress (j : Json) : Option HandProgress :=
  match j with
  | Json.obj fields =>
      match lookupKey fields "misses" with
      | some (Json.num n) =>
          some { misses := n,
                 lastMissedAt :=
                   match lookupKey fields "lastMissedAt" with
                   | some (Json.str t) => some t
                   | _ => none }
      | _ => none
  | _ => none

/-- The `try` branch of `loadProgressFromStorage` (App.tsx lines 93–97):
`totalMisses: parsed.totalMisses ?? 0, perHand: parsed.perHand ?? {}`.
An absent (or non-numeric, or non-object) field falls back to the
default. -/
def decodeStore (j : Json) : ProgressStore :=
  match j with
  | Json.obj fields =>
      { totalMisses :=
          match lookupKey fields "totalMisses" with
          | some (Json.num n) => n
          | _ => 0,
        perHand :=
          match lookupKey fields "perHand" with
          | some (Json.obj entries) =>
              entries.filterMap
                (fun p => (decodeHandProgress p.2).map (fun v => (p.1, v)))
          | _ => [] }
  | _ => { totalMisses := 0, perHand := [] }

/-- Function `loadProgressFromStorage` of App.tsx.  The argument is the
outcome of `localStorage.getItem` followed by `JSON.parse`: `none` when
no blob is stored, `some none` when the blob fails to parse (the `catch`
branch, for example on the literal string "not json"), `some (some j)`
when it parses to `j`. -/
def loadProgressFromStorage (blob : Option (Option Json)) : ProgressStore :=
  match blob with
  | none => DEFAULT_PROGRESS
  | some none => DEFAULT_PROGRESS
  | some (some j) => decodeStore j

/-- Total effective weight of a hand list (the `reduce` call in
`pickWeightedHand`), as a rational because the threshold
`Math.random() * totalWeight` is a real-valued draw. -/
def totalWeight (hands : List HandRecord) : ℚ :=
  hands.foldl (fun sum hand => sum + (ensureMinimumMisses hand.misses : ℚ)) 0

/-- The `for` loop of `pickWeightedHand`: subtract each effective weight
from the running threshold and return the first hand at which it reaches
≤ 0; `none` when the walk exhausts the list. -/
def pickLoop (hands : List HandRecord) (threshold : ℚ) : Option HandRecord :=
  match hands with
  | [] => none
  | hand :: rest =>
      let t := threshold - (ensureMinimumMisses hand.misses : ℚ)
      if t ≤ 0 then some hand else pickLoop rest t

/-- Function `pickWeightedHand` of App.tsx.  Here `r` is the value drawn
by `Math.random()` (in the browser `0 ≤ r < 1`; the definition is total
in `r`).  The fallback `hands[hands.length - 1] ?? null` after an
exhausted walk is the last element. -/
def pickWeightedHand (hands : List HandRecord) (r : ℚ) : Option HandRecord :=
  if hands.isEmpty then none
  else
    match pickLoop hands (r * totalWeight hands) with
    | some hand => some hand
    | none => hands.getLast?

/-- The `map` body of the bootstrap normalization (App.tsx lines
170–183): trim the text fields, parse the numbers, floor the reference
weight, then overlay the saved progress for that key when present. -/
def normalizeRow (storedProgress : ProgressStore) (row : RawHandRecord) :
    HandRecord :=
  let base : HandRecord :=
    { Hand := jsTrim row.Hand,
      Color := jsTrim row.Color,
      Players := parseNumber row.Players 0,
      misses := ensureMinimumMisses (parseNumber row.misses 1),
      lastMissedAt := none }
  match lookupKey storedProgress.perHand base.Hand with
  | some saved =>
      { base with misses := saved.misses, lastMissedAt := saved.lastMissedAt }
  | none => base

/-- The bootstrap normalization pipeline (App.tsx lines 166–183): drop
rows without a `Hand` key, then normalize and merge each row. -/
def normalizeHands (storedProgress : ProgressStore)
    (rows : List RawHandRecord) : List HandRecord :=
  (rows.filter (fun row => row.Hand ≠ "")).map (normalizeRow storedProgress)

/-- The component state of `App` that the engine touches, plus an
explicit log of the blobs written through `persistProgress` (each entry
is the store passed to `JSON.stringify`). -/
structure SessionState where
  hands : List HandRecord
  currentHand : Option HandRecord
  answerStatus : AnswerStatus
  selectedValue : Option Int
  progress : ProgressStore
  writes : List ProgressStore
deriving DecidableEq

/-- The state after a successful `bootstrap` (App.tsx lines 144–197) with
parsed rows `rows`, a stored-progress blob `blob` and first random draw
`r`: load progress, normalize the rows against it, and pick the first
current hand. -/
def bootstrapState (rows : List RawHandRecord) (blob : Option (Option Json))
    (r : ℚ) : SessionState :=
  let storedProgress := loadProgressFromStorage blob
  let normalizedHands := normalizeHands storedProgress rows
  { hands := normalizedHands,
    currentHand := pickWeightedHand normalizedHands r,
    answerStatus := AnswerStatus.idle,
    selectedValue := none,
    progress := storedProgress,
    writes := [] }

/-- Function `handleAnswer` of App.tsx (lines 212–246).  Here `timestamp`
is the value `new Date().toISOString()` would produce.  On a wrong answer
the hand list, the current-hand view and the progress store are all
updated with the incremented miss count and the timestamp, and the new
store is persisted (appended to the write log); on a right answer only
the status and the selection change; when the guard on line 213 fires the
state is returned unchanged. -/
def handleAnswer (value : Int) (timestamp : String) (s : SessionState) :
    SessionState :=
  match s.currentHand with
  | none => s
  | some currentHand =>
      if s.answerStatus ≠ AnswerStatus.idle then s
      else
        let isCorrect := value = currentHand.Players
        if isCorrect then
          { s with selectedValue := some value,
                   answerStatus := AnswerStatus.correct }
        else
          let incrementedMisses := currentHand.misses + 1
          let newProgress : ProgressStore :=
            { totalMisses := s.progress.totalMisses + 1,
              perHand := setKey s.progress.perHand currentHand.Hand
                { misses := incrementedMisses,
                  lastMissedAt := some timestamp } }
          { hands := s.hands.map (fun hand =>
              if hand.Hand = currentHand.Hand then
                { hand with misses := incrementedMisses,
                            lastMissedAt := some timestamp }
              else hand),
            currentHand := some { currentHand with
              misses := incrementedMisses,
              lastMissedAt := some timestamp },
            answerStatus := AnswerStatus.incorrect,
            selectedValue := some value,
            progress := newProgress,
            writes := s.writes ++ [newProgress] }

/-- A concrete reference hand used by witnesses. -/
def sampleHand : HandRecord :=
  { Hand := "AA", Color := "紺", Players := 2, misses := 1,
    lastMissedAt := none }

/-- A concrete hand with weight 0, used by the weight-floor witness. -/
def zeroWeightHand : HandRecord :=
  { Hand := "72o", Color := "グレー", Players := 0, misses := 0,
    lastMissedAt := none }

/-- A concrete awaiting-input session state used by witnesses. -/
def idleState : SessionState :=
  { hands := [sampleHand],
    currentHand := some sampleHand,
    answerStatus := AnswerStatus.idle,
    selectedValue := none,
    progress := DEFAULT_PROGRESS,
    writes := [] }

/-- A concrete already-answered session state used by witnesses. -/
def answeredState : SessionState :=
  { idleState with
    answerStatus := AnswerStatus.correct,
    selectedValue := some 2 }

/-- The CSV row `Hand=AA, Color=紺, Players=2, misses=1` of the
end-to-end scenarios. -/
def aaRawRow : RawHandRecord :=
  { Hand := "AA", Color := "紺", Players := "2", misses := "1" }

/-- The normalized form of `aaRawRow` under an empty progress store. -/
def aaHand : HandRecord :=
  { Hand := "AA", Color := "紺", Players := 2, misses := 1,
    lastMissedAt := none }

/-- The state after bootstrapping from the single reference row
`Hand=AA, Color=紺, Players=2, misses=1` with no persisted progress
(draw value 0). -/
def aaScenarioState : SessionState := bootstrapState [aaRawRow] none 0

/-! ## Helper lemmas -/

lemma effW_ge_one (h : HandRecord) :
    (1 : ℚ) ≤ (ensureMinimumMisses h.misses : ℚ) := by
  have : (1 : Int) ≤ ensureMinimumMisses h.misses := le_max_left _ _
  exact_mod_cast this

lemma totalWeight_aux (l : List HandRecord) (a : ℚ) :
    l.foldl (fun sum hand => sum + (ensureMinimumMisses hand.misses : ℚ)) a =
      a + totalWeight l := by
  induction l generalizing a with
  | nil => simp [totalWeight]
  | cons h t ih =>
      simp only [totalWeight, List.foldl_cons]
      rw [ih, ih (0 + _)]
      ring

lemma totalWeight_cons (h : HandRecord) (t : List HandRecord) :
    totalWeight (h :: t) =
      (ensureMinimumMisses h.misses : ℚ) + totalWeight t := by
  simp only [totalWeight, List.foldl_cons]
  rw [totalWeight_aux]
  simp only [totalWeight]
  ring

lemma totalWeight_nonneg (l : List HandRecord) : 0 ≤ totalWeight l := by
  induction l with
  | nil => simp [totalWeight]
  | cons h t ih =>
      rw [totalWeight_cons]
      have := effW_ge_one h
      linarith

lemma length_le_totalWeight (l : List HandRecord) :
    (l.length : ℚ) ≤ totalWeight l := by
  induction l with
  | nil => simp [totalWeight]
  | cons h t ih =>
      rw [totalWeight_cons]
      have := effW_ge_one h
      push_cast [List.length_cons]
      linarith

lemma pickLoop_mem {l : List HandRecord} {t : ℚ} {h : HandRecord}
    (hp : pickLoop l t = some h) : h ∈ l := by
  induction l generalizing t with
  | nil => simp [pickLoop] at hp
  | cons x xs ih =>
      simp only [pickLoop] at hp
      split at hp
      · cases hp; exact List.mem_cons_self _ _
      · exact List.mem_cons_of_mem _ (ih hp)

lemma getLast?_mem {l : List HandRecord} (hne : l ≠ []) :
    ∃ h, l.getLast? = some h ∧ h ∈ l := by
  induction l with
  | nil => exact absurd rfl hne
  | cons x xs ih =>
      cases xs with
      | nil => exact ⟨x, rfl, List.mem_cons_self _ _⟩
      | cons y ys =>
          obtain ⟨h, hl, hm⟩ := ih (by simp)
          exact ⟨h, by rw [List.getLast?_cons_cons]; exact hl,
                 List.mem_cons_of_mem _ hm⟩

lemma pickLoop_select (l : List HandRecord) (i : ℕ) (hi : i < l.length) :
    ∃ t : ℚ, 0 < t ∧ t ≤ totalWeight l ∧ pickLoop l t = some l[i] := by
  induction l generalizing i with
  | nil => simp at hi
  | cons h rest ih =>
      cases i with
      | zero =>
          refine ⟨(ensureMinimumMisses h.misses : ℚ), ?_, ?_, ?_⟩
          · have := effW_ge_one h; linarith
          · rw [totalWeight_cons]
            have := totalWeight_nonneg rest
            linarith
          · simp [pickLoop]
      | succ j =>
          have hj : j < rest.length := by simpa using hi
          obtain ⟨t, ht0, htle, hpick⟩ := ih j hj
          refine ⟨(ensureMinimumMisses h.misses : ℚ) + t, ?_, ?_, ?_⟩
          · have := effW_ge_one h; linarith
          · rw [totalWeight_cons]; linarith
          · simp only [pickLoop]
            rw [if_neg (by linarith)]
            simpa using hpick

lemma lookupKey_append_self {α : Type} (m : List (String × α)) (k : String)
    (v : α) (h : lookupKey m k = none) :
    lookupKey (m ++ [(k, v)]) k = some v := by
  induction m with
  | nil => simp [lookupKey]
  | cons p t ih =>
      by_cases hp : p.1 = k
      · simp [lookupKey, List.find?_cons, hp] at h
      · simp only [lookupKey, List.cons_append, List.find?_cons] at h ⊢
        rw [decide_eq_false hp] at h ⊢
        exact ih h

lemma lookupKey_map_set {α : Type} (m : List (String × α)) (k : String)
    (v : α) :
    lookupKey (m.map (fun p => if p.1 = k then (k, v) else p)) k =
      (lookupKey m k).map (fun _ => v) := by
  induction m with
  | nil => simp [lookupKey]
  | cons p t ih =>
      by_cases hp : p.1 = k
      · simp [lookupKey, List.find?_cons, hp]
      · simp only [lookupKey, List.map_cons, List.find?_cons, if_neg hp]
        rw [decide_eq_false hp]
        exact ih

lemma lookupKey_setKey_self {α : Type} (m : List (String × α)) (k : String)
    (v : α) : lookupKey (setKey m k v) k = some v := by
  unfold setKey
  by_cases h : (lookupKey m k).isSome
  · rw [if_pos h, lookupKey_map_set]
    obtain ⟨w, hw⟩ := Option.isSome_iff_exists.mp h
    simp [hw]
  · rw [if_neg h]
    exact lookupKey_append_self m k v (Option.not_isSome_iff_eq_none.mp h)

lemma handleAnswer_incorrect_eq (v : Int) (ts : String) (s : SessionState)
    (c : HandRecord) (hc : s.currentHand = some c)
    (hs : s.answerStatus = AnswerStatus.idle) (hv : v ≠ c.Players) :
    handleAnswer v ts s =
      { hands := s.hands.map (fun hand =>
          if hand.Hand = c.Hand then
            { hand with misses := c.misses + 1, lastMissedAt := some ts }
          else hand),
        currentHand := some { c with misses := c.misses + 1,
                                     lastMissedAt := some ts },
        answerStatus := AnswerStatus.incorrect,
        selectedValue := some v,
        progress := { totalMisses := s.progress.totalMisses + 1,
                      perHand := setKey s.progress.perHand c.Hand
                        { misses := c.misses + 1,
                          lastMissedAt := some ts } },
        writes := s.writes ++
          [{ totalMisses := s.progress.totalMisses + 1,
             perHand := setKey s.progress.perHand c.Hand
               { misses := c.misses + 1, lastMissedAt := some ts } }] } := by
  simp [handleAnswer, hc, hs, hv]

lemma decodeHandProgress_encode (v : HandProgress) :
    decodeHandProgress (encodeHandProgress v) = some v := by
  obtain ⟨m, t⟩ := v
  cases t <;> rfl

lemma decode_encode_perHand (m : List (String × HandProgress)) :
    (m.map (fun p => (p.1, encodeHandProgress p.2))).filterMap
      (fun p => (decodeHandProgress p.2).map (fun v => (p.1, v))) = m := by
  induction m with
  | nil => rfl
  | cons p t ih =>
      simp only [List.map_cons, List.filterMap_cons,
        decodeHandProgress_encode, Option.map_some']
      rw [ih]

lemma decodeStore_encodeStore (s : ProgressStore) :
    decodeStore (encodeStore s) = s := by
  obtain ⟨t, m⟩ := s
  simp only [encodeStore, decodeStore]
  have h1 : lookupKey [("totalMisses", Json.num t),
      ("perHand", Json.obj (m.map (fun p => (p.1, encodeHandProgress p.2))))]
      "totalMisses" = some (Json.num t) := rfl
  have h2 : lookupKey [("totalMisses", Json.num t),
      ("perHand", Json.obj (m.map (fun p => (p.1, encodeHandProgress p.2))))]
      "perHand" =
      some (Json.obj (m.map (fun p => (p.1, encodeHandProgress p.2)))) := rfl
  rw [h1, h2]
  simp only [decode_encode_perHand]

lemma pick_singleton (h : HandRecord) (r : ℚ) :
    pickWeightedHand [h] r = some h := by
  cases hp : pickLoop [h] (r * totalWeight [h]) with
  | some x =>
      have hx := pickLoop_mem hp
      simp only [List.mem_singleton] at hx
      subst hx
      simp [pickWeightedHand, hp]
  | none => simp [pickWeightedHand, hp]

lemma find?_hands_update (l : List HandRecord) (k : String) (n : Int)
    (ts : String) :
    (l.map (fun hand =>
        if hand.Hand = k then
          { hand with misses := n, lastMissedAt := some ts }
        else hand)).find? (fun hand => hand.Hand = k) =
      (l.find? (fun hand => hand.Hand = k)).map
        (fun hand => { hand with misses := n, lastMissedAt := some ts }) := by
  induction l with
  | nil => rfl
  | cons x xs ih =>
      by_cases hx : x.Hand = k
      · simp [List.find?_cons, hx]
      · simp only [List.map_cons, List.find?_cons, if_neg hx]
        rw [decide_eq_false hx]
        exact ih

lemma aaScenario_currentHand : aaScenarioState.currentHand = some aaHand := by
  show pickWeightedHand (normalizeHands (loadProgressFromStorage none)
    [aaRawRow]) 0 = some aaHand
  rw [(by decide :
    normalizeHands (loadProgressFromStorage none) [aaRawRow] = [aaHand])]
  exact pick_singleton aaHand 0

/-! ## Claims -/

/-- Claim C1, counterexample: in the bootstrapped single-row state the
store has no record for "AA", yet recording a miss (submitting the wrong
answer 3) creates the record with count 2 — the in-memory count of the
current item plus 1 — not with count 1. -/
theorem recordMiss_fresh_record_not_one :
    lookupKey aaScenarioState.progress.perHand "AA" = none ∧
    (lookupKey (handleAnswer 3 "2024-01-01T00:00:00.000Z"
        aaScenarioState).progress.perHand "AA").map HandProgress.misses =
      some 2 ∧
    some (2 : Int) ≠ some (1 : Int) := by
  refine ⟨rfl, ?_, by decide⟩
  rw [handleAnswer_incorrect_eq 3 "2024-01-01T00:00:00.000Z"
    aaScenarioState aaHand aaScenario_currentHand rfl (by decide)]
  rfl

/-- Claim C1 (amended): recording a miss returns a new store whose total
miss count is the old total plus exactly 1, and whose record for the key
is set to the in-memory miss count of the current item plus 1, with the
timestamp replaced by the given value.  Because the merged item count
equals the stored record count whenever a record exists, an existing
in-sync record is incremented by 1; but a record created for a key with
no prior record starts at the merged reference weight of the item plus 1
(at least 2), not at 1. -/
theorem recordMiss_total_plus_one_count_from_item (v : Int) (ts : String)
    (s : SessionState) (c : HandRecord) (hc : s.currentHand = some c)
    (hs : s.answerStatus = AnswerStatus.idle) (hv : v ≠ c.Players) :
    (handleAnswer v ts s).progress.totalMisses =
      s.progress.totalMisses + 1 ∧
    lookupKey (handleAnswer v ts s).progress.perHand c.Hand =
      some { misses := c.misses + 1, lastMissedAt := some ts } := by
  rw [handleAnswer_incorrect_eq v ts s c hc hs hv]
  exact ⟨rfl, lookupKey_setKey_self _ _ _⟩

/-- Witness for the amended C1 at the concrete one-row scenario. -/
theorem recordMiss_total_plus_one_witness :
    (aaScenarioState.currentHand = some aaHand) ∧
    (aaScenarioState.answerStatus = AnswerStatus.idle) ∧
    ((3 : Int) ≠ aaHand.Players) ∧
    ((handleAnswer 3 "2024-01-01T00:00:00.000Z"
        aaScenarioState).progress.totalMisses =
      aaScenarioState.progress.totalMisses + 1 ∧
     lookupKey (handleAnswer 3 "2024-01-01T00:00:00.000Z"
        aaScenarioState).progress.perHand aaHand.Hand =
      some { misses := aaHand.misses + 1,
             lastMissedAt := some "2024-01-01T00:00:00.000Z" }) :=
  ⟨aaScenario_currentHand, rfl, by decide,
   recordMiss_total_plus_one_count_from_item 3 "2024-01-01T00:00:00.000Z"
     aaScenarioState aaHand aaScenario_currentHand rfl (by decide)⟩

/-- Claim C2: for every non-empty hand list the weighted pick returns an
element of the input list, whatever the drawn random value and the
weights; for the empty list it returns none. -/
theorem pick_mem_of_nonempty_none_of_empty (hands : List HandRecord)
    (r : ℚ) :
    (hands = [] → pickWeightedHand hands r = none) ∧
    (hands ≠ [] → ∃ h, h ∈ hands ∧ pickWeightedHand hands r = some h) := by
  constructor
  · intro h; subst h; rfl
  · intro hne
    cases hands with
    | nil => exact absurd rfl hne
    | cons x xs =>
        cases hp : pickLoop (x :: xs) (r * totalWeight (x :: xs)) with
        | some h =>
            exact ⟨h, pickLoop_mem hp, by simp [pickWeightedHand, hp]⟩
        | none =>
            obtain ⟨h, hl, hm⟩ := getLast?_mem hne
            exact ⟨h, hm, by simp [pickWeightedHand, hp, hl]⟩

/-- Witness for C2 at a concrete one-element list and draw 1/2. -/
theorem pick_mem_of_nonempty_witness :
    ([sampleHand] ≠ ([] : List HandRecord)) ∧
    ∃ h, h ∈ [sampleHand] ∧ pickWeightedHand [sampleHand] (1/2) = some h :=
  ⟨by decide,
   (pick_mem_of_nonempty_none_of_empty [sampleHand] (1/2)).2 (by decide)⟩

/-- Claim C3: end-to-end — from the single reference row
`Hand=AA, Color=紺, Players=2, misses=1` and an empty progress store,
submitting 3 sets the status to incorrect, and the stored record for "AA"
has miss count 2 and the (non-empty) submitted timestamp, with the total
miss count of the store equal to 1; this holds for every draw value. -/
theorem endToEnd_incorrect_scenario (ts : String) (hts : ts ≠ "") (r : ℚ) :
    (handleAnswer 3 ts (bootstrapState [aaRawRow] none r)).answerStatus =
      AnswerStatus.incorrect ∧
    lookupKey (handleAnswer 3 ts
        (bootstrapState [aaRawRow] none r)).progress.perHand "AA" =
      some { misses := 2, lastMissedAt := some ts } ∧
    ts ≠ "" ∧
    (handleAnswer 3 ts
        (bootstrapState [aaRawRow] none r)).progress.totalMisses = 1 := by
  have hcur : (bootstrapState [aaRawRow] none r).currentHand =
      some aaHand := by
    show pickWeightedHand (normalizeHands (loadProgressFromStorage none)
      [aaRawRow]) r = some aaHand
    rw [(by decide :
      normalizeHands (loadProgressFromStorage none) [aaRawRow] = [aaHand])]
    exact pick_singleton aaHand r
  rw [handleAnswer_incorrect_eq 3 ts (bootstrapState [aaRawRow] none r)
    aaHand hcur rfl (by decide)]
  refine ⟨rfl, ?_, hts, rfl⟩
  exact lookupKey_setKey_self
    (bootstrapState [aaRawRow] none r).progress.perHand aaHand.Hand
    { misses := aaHand.misses + 1, lastMissedAt := some ts }

/-- Witness for C3 at a concrete timestamp and draw value 0. -/
theorem endToEnd_incorrect_scenario_witness :
    ("2024-01-01T00:00:00.000Z" ≠ "") ∧
    ((handleAnswer 3 "2024-01-01T00:00:00.000Z"
        (bootstrapState [aaRawRow] none 0)).answerStatus =
      AnswerStatus.incorrect ∧
     lookupKey (handleAnswer 3 "2024-01-01T00:00:00.000Z"
        (bootstrapState [aaRawRow] none 0)).progress.perHand "AA" =
      some { misses := 2,
             lastMissedAt := some "2024-01-01T00:00:00.000Z" } ∧
     "2024-01-01T00:00:00.000Z" ≠ "" ∧
     (handleAnswer 3 "2024-01-01T00:00:00.000Z"
        (bootstrapState [aaRawRow] none 0)).progress.totalMisses = 1) :=
  ⟨by decide,
   endToEnd_incorrect_scenario "2024-01-01T00:00:00.000Z" (by decide) 0⟩

/-- Claim C4: loading the persisted progress never propagates an error:
for every persisted blob that is absent or fails to deserialize (such as
the literal string "not json", which `JSON.parse` rejects), load returns
the empty store with total 0 and no per-item records. -/
theorem loadProgress_fail_soft (blob : Option (Option Json))
    (h : blob = none ∨ blob = some none) :
    loadProgressFromStorage blob = { totalMisses := 0, perHand := [] } := by
  rcases h with h | h <;> subst h <;> rfl

/-- Witness for C4 at the parse-failure blob (the "not json" case). -/
theorem loadProgress_fail_soft_witness :
    ((some (none : Option Json) = none ∨
      some (none : Option Json) = some none)) ∧
    loadProgressFromStorage (some none) =
      { totalMisses := 0, perHand := [] } :=
  ⟨Or.inr rfl, loadProgress_fail_soft (some none) (Or.inr rfl)⟩

/-- Claim C5: submitting an answer when the status is not awaiting input,
or when no current item exists, is a no-op: the whole session state —
hands, current item, status, selection, progress store and write log — is
returned unchanged, so either the full side-effect sequence runs or
nothing happens. -/
theorem handleAnswer_noop_when_not_awaiting (v : Int) (ts : String)
    (s : SessionState)
    (h : s.currentHand = none ∨ s.answerStatus ≠ AnswerStatus.idle) :
    handleAnswer v ts s = s := by
  rcases h with h | h
  · simp [handleAnswer, h]
  · cases hc : s.currentHand with
    | none => simp [handleAnswer, hc]
    | some c => simp [handleAnswer, hc, h]

/-- Witness for C5 at a concrete already-answered state. -/
theorem handleAnswer_noop_witness :
    (answeredState.currentHand = none ∨
      answeredState.answerStatus ≠ AnswerStatus.idle) ∧
    handleAnswer 3 "2024-01-01T00:00:00.000Z" answeredState =
      answeredState :=
  ⟨Or.inr (by decide),
   handleAnswer_noop_when_not_awaiting 3 "2024-01-01T00:00:00.000Z"
     answeredState (Or.inr (by decide))⟩

/-- Claim C6: submitting the correct answer changes only the answer
status (to correct) and the recorded selection: the hand list, the
current-hand view (hence its weight), the progress store and the write
log are exactly those of the input state. -/
theorem handleAnswer_correct_only_status_selection (v : Int) (ts : String)
    (s : SessionState) (c : HandRecord) (hc : s.currentHand = some c)
    (hs : s.answerStatus = AnswerStatus.idle) (hv : v = c.Players) :
    handleAnswer v ts s =
      { s with selectedValue := some v,
               answerStatus := AnswerStatus.correct } := by
  simp [handleAnswer, hc, hs, hv]

/-- Witness for C6 at a concrete awaiting state and the right answer. -/
theorem handleAnswer_correct_witness :
    (idleState.currentHand = some sampleHand) ∧
    (idleState.answerStatus = AnswerStatus.idle) ∧
    ((2 : Int) = sampleHand.Players) ∧
    handleAnswer 2 "2024-01-01T00:00:00.000Z" idleState =
      { idleState with selectedValue := some (2 : Int),
                       answerStatus := AnswerStatus.correct } :=
  ⟨rfl, rfl, by decide,
   handleAnswer_correct_only_status_selection 2 "2024-01-01T00:00:00.000Z"
     idleState sampleHand rfl rfl (by decide)⟩

/-- Claim C7: an item whose raw or stored weight is 0 or negative gets
effective weight max(1, w) = 1 in the selector, still contributes to the
total weight (the total is at least the item count), and remains
selectable: some draw returns it. -/
theorem weight_floor_selectable (hands : List HandRecord) (h : HandRecord)
    (hmem : h ∈ hands) (hw : h.misses ≤ 0) :
    ensureMinimumMisses h.misses = 1 ∧
    ((hands.length : ℚ) ≤ totalWeight hands) ∧
    ∃ r : ℚ, pickWeightedHand hands r = some h := by
  refine ⟨?_, length_le_totalWeight hands, ?_⟩
  · simp only [ensureMinimumMisses]
    omega
  · obtain ⟨n, hn⟩ := List.mem_iff_get.mp hmem
    obtain ⟨t, ht0, htle, hpick⟩ := pickLoop_select hands n.1 n.2
    have hg : hands[n.1] = h := by
      rw [← hn]
      rfl
    have hne : hands ≠ [] := List.ne_nil_of_mem hmem
    have h1 : (1 : ℚ) ≤ (hands.length : ℚ) := by
      have : 0 < hands.length := List.length_pos.mpr hne
      exact_mod_cast this
    have h0 : (0 : ℚ) < totalWeight hands := by
      linarith [length_le_totalWeight hands]
    refine ⟨t / totalWeight hands, ?_⟩
    have hEmp : hands.isEmpty = false := by
      cases hands with
      | nil => exact absurd rfl hne
      | cons x xs => rfl
    unfold pickWeightedHand
    rw [hEmp]
    simp only [Bool.false_eq_true, if_false]
    rw [div_mul_cancel₀ _ (ne_of_gt h0), hpick]
    exact congrArg some hg

/-- Witness for C7 at a concrete zero-weight item. -/
theorem weight_floor_selectable_witness :
    ensureMinimumMisses zeroWeightHand.misses = 1 ∧
    ((([zeroWeightHand] : List HandRecord).length : ℚ) ≤
      totalWeight [zeroWeightHand]) ∧
    ∃ r : ℚ, pickWeightedHand [zeroWeightHand] r = some zeroWeightHand :=
  weight_floor_selectable [zeroWeightHand] zeroWeightHand (by decide)
    (by decide)

/-- Claim C8: deserializing the serialized form of any progress store
yields the original store (the load path applied to the blob written by
`persistProgress`). -/
theorem load_of_persisted_roundtrip (s : ProgressStore) :
    loadProgressFromStorage (some (some (encodeStore s))) = s :=
  decodeStore_encodeStore s

/-- Claim C9: whenever an incorrect answer is processed for the current
item, the persisted per-key record, the matching entry of the hand list,
and the current-item view all carry the same new miss count — the
previous in-memory count of the current item plus 1 — and the same
timestamp. -/
theorem miss_updates_consistent (v : Int) (ts : String) (s : SessionState)
    (c : HandRecord) (hc : s.currentHand = some c)
    (hs : s.answerStatus = AnswerStatus.idle) (hv : v ≠ c.Players) :
    lookupKey (handleAnswer v ts s).progress.perHand c.Hand =
      some { misses := c.misses + 1, lastMissedAt := some ts } ∧
    (handleAnswer v ts s).currentHand =
      some { c with misses := c.misses + 1, lastMissedAt := some ts } ∧
    (handleAnswer v ts s).hands.find? (fun hand => hand.Hand = c.Hand) =
      (s.hands.find? (fun hand => hand.Hand = c.Hand)).map
        (fun hand =>
          { hand with misses := c.misses + 1,
                      lastMissedAt := some ts }) := by
  rw [handleAnswer_incorrect_eq v ts s c hc hs hv]
  exact ⟨lookupKey_setKey_self _ _ _, rfl,
    find?_hands_update s.hands c.Hand (c.misses + 1) ts⟩

/-- Witness for C9 at a concrete awaiting state and the wrong answer 3. -/
theorem miss_updates_consistent_witness :
    (idleState.currentHand = some sampleHand) ∧
    (idleState.answerStatus = AnswerStatus.idle) ∧
    ((3 : Int) ≠ sampleHand.Players) ∧
    (lookupKey (handleAnswer 3 "2024-01-01T00:00:00.000Z"
        idleState).progress.perHand sampleHand.Hand =
      some { misses := sampleHand.misses + 1,
             lastMissedAt := some "2024-01-01T00:00:00.000Z" } ∧
     (handleAnswer 3 "2024-01-01T00:00:00.000Z" idleState).currentHand =
      some { sampleHand with
               misses := sampleHand.misses + 1,
               lastMissedAt := some "2024-01-01T00:00:00.000Z" } ∧
     (handleAnswer 3 "2024-01-01T00:00:00.000Z" idleState).hands.find?
        (fun hand => hand.Hand = sampleHand.Hand) =
      (idleState.hands.find? (fun hand => hand.Hand = sampleHand.Hand)).map
        (fun hand =>
          { hand with misses := sampleHand.misses + 1,
                      lastMissedAt := some "2024-01-01T00:00:00.000Z" })) :=
  ⟨rfl, rfl, by decide,
   miss_updates_consistent 3 "2024-01-01T00:00:00.000Z" idleState
     sampleHand rfl rfl (by decide)⟩

/-- Claim C10: a persisted blob that parses but lacks the full store
shape is recovered field by field: a present `totalMisses` number and a
present `perHand` object are kept, a missing field falls back to 0 or the
empty map, and load never fails. -/
theorem loadProgress_partial_recovery (tm : Int)
    (m : List (String × HandProgress)) :
    loadProgressFromStorage (some (some (Json.obj
        [("totalMisses", Json.num tm),
         ("perHand",
          Json.obj (m.map (fun p => (p.1, encodeHandProgress p.2))))]))) =
      { totalMisses := tm, perHand := m } ∧
    loadProgressFromStorage (some (some (Json.obj
        [("totalMisses", Json.num tm)]))) =
      { totalMisses := tm, perHand := [] } ∧
    loadProgressFromStorage (some (some (Json.obj
        [("perHand",
          Json.obj (m.map (fun p => (p.1, encodeHandProgress p.2))))]))) =
      { totalMisses := 0, perHand := m } ∧
    loadProgressFromStorage (some (some (Json.obj []))) =
      { totalMisses := 0, perHand := [] } := by
  refine ⟨?_, rfl, ?_, rfl⟩
  · exact decodeStore_encodeStore { totalMisses := tm, perHand := m }
  · simp only [loadProgressFromStorage, decodeStore]
    have h2 : lookupKey
        [("perHand",
          Json.obj (m.map (fun p => (p.1, encodeHandProgress p.2))))]
        "perHand" =
        some (Json.obj (m.map (fun p => (p.1, encodeHandProgress p.2)))) :=
      rfl
    rw [h2]
    simp only [decode_encode_perHand]
    rfl
